import Mathlib

/-!
Shallow embedding of the Jira worklog-aggregation service
(`JiraService`, final variant: range-split fetching with 7-day lookback,
embedded-worklog optimization, per-issue degraded fetch).

Conventions of the embedding:
* Calendar dates handled by the service's date arithmetic
  (`subtractDays`, `addDays`, `nextDay`) are modelled as `Int` day numbers
  (days since 1970-01-01).  The JS code stores them as `YYYY-MM-DD`
  strings and compares them lexicographically; on fixed-width ISO dates
  lexicographic string order coincides with day-number order, and the
  noon-UTC-anchored JS `Date` arithmetic is plain day arithmetic, so the
  two views are order-isomorphic.  `toISO` converts a day number to the
  `YYYY-MM-DD` string that is interpolated into JQL clauses.
* HTTP calls are replaced by explicit oracles (functions producing the
  response or an `HttpErr`); thrown JS exceptions become `Except` errors.
* JS `undefined`/missing fields become `Option`; JS string falsiness
  (`""` is falsy) is modelled explicitly where the code relies on it.
-/

namespace JiraSvc

/-! ### Character/string utilities (JS `trim`, `split`, `includes`, `padStart`) -/

/-- Whitespace for JS `String.prototype.trim` (ASCII subset; the inputs the
service handles contain no exotic Unicode whitespace). -/
def isWSChar (c : Char) : Bool :=
  c = ' ' || c = '\t' || c = '\n' || c = '\r'

/-- `s.trim()` on a character list: strip leading and trailing whitespace. -/
def trimChars (l : List Char) : List Char :=
  ((l.dropWhile isWSChar).reverse.dropWhile isWSChar).reverse

/-- `s.trim()` on a string. -/
def trimStr (s : String) : String :=
  String.mk (trimChars s.toList)

/-- Characters the separator class (dash or slash) of the date split
matches. -/
def isSepChar (c : Char) : Bool :=
  c = '-' || c = '/'

/-- The JS regex split of `normalizeToYYYYMMDD` on a character list: split
at every dash or slash, keeping empty segments, never returning an empty
list. -/
def splitOnSeps : List Char → List (List Char)
  | [] => [[]]
  | c :: cs =>
    if isSepChar c then [] :: splitOnSeps cs
    else
      match splitOnSeps cs with
      | [] => [[c]]
      | h :: t => (c :: h) :: t

/-- JS `"x".padStart(2, '0')` on a character list. -/
def pad2L (l : List Char) : List Char :=
  if 2 ≤ l.length then l else List.replicate (2 - l.length) '0' ++ l

/-- Digit test used by the `^\d{4}-\d{2}-\d{2}$` regex. -/
def isDigitCh (c : Char) : Bool :=
  '0' ≤ c && c ≤ '9'

/-- The regex test `/^\d{4}-\d{2}-\d{2}$/.test s` as explicit position
checks on the character list. -/
def isoShapeTest (l : List Char) : Bool :=
  l.length = 10 &&
  isDigitCh (l.getD 0 ' ') && isDigitCh (l.getD 1 ' ') &&
  isDigitCh (l.getD 2 ' ') && isDigitCh (l.getD 3 ' ') &&
  (l.getD 4 ' ' = '-') &&
  isDigitCh (l.getD 5 ' ') && isDigitCh (l.getD 6 ' ') &&
  (l.getD 7 ' ' = '-') &&
  isDigitCh (l.getD 8 ' ') && isDigitCh (l.getD 9 ' ')

/-- JS `s.split('T')[0]`: the prefix of `s` before the first `'T'`. -/
def datePart (s : String) : String :=
  String.mk (s.toList.takeWhile (fun c => c ≠ 'T'))

/-- `needle` occurs at the head of `hay`. -/
def leadsWith : List Char → List Char → Bool
  | [], _ => true
  | _ :: _, [] => false
  | a :: as, b :: bs => a = b && leadsWith as bs

/-- JS `hay.includes(needle)`: `needle` occurs contiguously in `hay`. -/
def hasSub (needle : List Char) : List Char → Bool
  | [] => needle.isEmpty
  | c :: cs => leadsWith needle (c :: cs) || hasSub needle cs

/-- `jql.toLowerCase().includes('project')` from `buildJql`. -/
def mentionsProject (jql : String) : Bool :=
  hasSub "project".toList (jql.toLower.toList)

/-! ### Calendar conversion (`Date#toISOString().split('T')[0]`)

Day number 0 is 1970-01-01.  `civilFromDays` is the standard
days-to-civil-calendar conversion (proleptic Gregorian), matching what a
JS `Date` holds for dates manipulated as `YYYY-MM-DD` at a fixed UTC
time-of-day. -/

def civilFromDays (z0 : Int) : Int × Int × Int :=
  let z := z0 + 719468
  let era : Int := (if 0 ≤ z then z else z - 146096) / 146097
  let doe : Int := z - era * 146097
  let yoe : Int := (doe - doe / 1460 + doe / 36524 - doe / 146096) / 365
  let y : Int := yoe + era * 400
  let doy : Int := doe - (365 * yoe + yoe / 4 - yoe / 100)
  let mp : Int := (5 * doy + 2) / 153
  let d : Int := doy - (153 * mp + 2) / 5 + 1
  let m : Int := mp + (if mp < 10 then 3 else -9)
  (y + (if m ≤ 2 then 1 else 0), m, d)

/-- Zero-pad the decimal form of a nonnegative `Int` to `w` digits. -/
def padNum (w : Nat) (n : Int) : String :=
  let s := toString n.toNat
  String.mk (List.replicate (w - s.length) '0') ++ s

/-- `YYYY-MM-DD` string of a day number (what `toISOString().split('T')[0]`
yields). -/
def toISO (z : Int) : String :=
  let c := civilFromDays z
  padNum 4 c.1 ++ "-" ++ padNum 2 c.2.1 ++ "-" ++ padNum 2 c.2.2

/-! ### Date arithmetic of the service (on day numbers) -/

/-- `subtractDays(dateStr, days)`. -/
def subtractDays (d : Int) (days : Nat) : Int := d - days

/-- `addDays(dateStr, days)`. -/
def addDays (d : Int) (days : Nat) : Int := d + days

/-- `nextDay(dateStr)` (noon-UTC anchored increment). -/
def nextDay (d : Int) : Int := d + 1

/-! ### Data model -/

structure WAuthor where
  accountId : Option String
  emailAddress : Option String
  displayName : Option String
deriving DecidableEq, Repr

structure JiraWorklog where
  author : WAuthor
  timeSpentSeconds : Nat
  started : Option String
  created : Option String
deriving DecidableEq, Repr

/-- The worklog page embedded in an issue's `fields.worklog`. -/
structure EmbeddedWorklog where
  startAt : Nat
  maxResults : Nat
  total : Nat
  worklogs : List JiraWorklog
deriving DecidableEq, Repr

structure JiraIssueFields where
  summary : Option String
  assignee : Option String
  worklog : Option EmbeddedWorklog
deriving DecidableEq, Repr

structure JiraIssue where
  id : String
  key : String
  fields : Option JiraIssueFields
deriving DecidableEq, Repr

structure AccessibleResource where
  id : String
  scopes : Option (List String)
deriving DecidableEq, Repr

/-- The slice of an axios error the service inspects
(`httpError.response?.status`). -/
structure HttpErr where
  status : Option Nat
deriving DecidableEq, Repr

/-- Errors surfaced by the service: `UnauthorizedException` or the generic
`Error` rethrown by the catch blocks. -/
inductive ServiceError where
  | unauthorized (msg : String)
  | generic (msg : String)
deriving DecidableEq, Repr

/-- A page of the paginated worklog endpoint. -/
structure WorklogPage where
  worklogs : List JiraWorklog
  total : Nat
deriving DecidableEq, Repr

/-! ### `normalizeToYYYYMMDD` -/

/-- `normalizeToYYYYMMDD(dateStr)`: identity on `undefined` and on the
falsy `""`; otherwise trim, accept an exact `YYYY-MM-DD`, rewrite a
three-part dash/slash date with part lengths `<=2, <=2, =4`, and fall
through to the trimmed input. -/
def normalizeToYYYYMMDD : Option String → Option String
  | none => none
  | some dateStr =>
    if dateStr = "" then some dateStr
    else
      let trimmed := trimChars dateStr.toList
      if isoShapeTest trimmed then some (String.mk trimmed)
      else
        match splitOnSeps trimmed with
        | [d, m, y] =>
          if d.length ≤ 2 ∧ m.length ≤ 2 ∧ y.length = 4 then
            some (String.mk (y ++ ['-'] ++ pad2L m ++ ['-'] ++ pad2L d))
          else some (String.mk trimmed)
        | _ => some (String.mk trimmed)

/-! ### `isWorklogInDateRange` -/

/-- JS truthiness of an optional string (`undefined` and `""` are falsy). -/
def jsTruthyStr : Option String → Bool
  | none => false
  | some s => !(s = "")

/-- `isWorklogInDateRange(worklog, from, to)`: no bounds means no filter;
a missing `started` fails any bound; otherwise compare the `YYYY-MM-DD`
prefix of `started` lexicographically against the bounds (inclusive). -/
def isWorklogInDateRange (w : JiraWorklog) (fromD toD : Option String) : Bool :=
  if !jsTruthyStr fromD && !jsTruthyStr toD then true
  else
    match w.started with
    | none => false
    | some worklogDate =>
      let dateStr := datePart worklogDate
      if jsTruthyStr fromD && decide (dateStr < fromD.getD "") then false
      else if jsTruthyStr toD && decide (toD.getD "" < dateStr) then false
      else true

/-! ### `buildJql` -/

/-- `filters.join(' AND ')`. -/
def joinAnd : List String → String
  | [] => ""
  | [x] => x
  | x :: y :: xs => x ++ " AND " ++ joinAnd (y :: xs)

/-- `buildJql(baseJql?, from?, to?, projectKey?, expandWorklogDateRange =
true, username?)`.  The ambient clock (`new Date()` for the `created`
age limit) is passed explicitly as `today`.  Date bounds are day numbers
(`none` covers both JS `undefined` and the falsy `""`). -/
def buildJql (baseJql : Option String) (fromD toD : Option Int)
    (projectKey : Option String) (expandWorklogDateRange : Bool)
    (username : Option String) (today : Int) : String :=
  let jql := trimStr (baseJql.getD "")
  let filters : List String :=
    (match username with
     | some u => if u ≠ "" ∧ u ≠ "undefined" then ["worklogAuthor = " ++ u] else []
     | none => []) ++
    (match projectKey with
     | some p =>
       if p ≠ "" ∧ p ≠ "undefined" ∧ mentionsProject jql = false then
         ["project = " ++ p]
       else []
     | none => []) ++
    (if fromD.isSome ∨ toD.isSome then
      (match fromD with
       | some f =>
         if expandWorklogDateRange then
           ["worklogDate >= \"" ++ toISO (subtractDays f 30) ++ "\""]
         else
           ["worklogDate >= \"" ++ toISO f ++ "\""]
       | none => []) ++
      (match toD with
       | some t =>
         if expandWorklogDateRange then
           ["worklogDate <= \"" ++ toISO (addDays t 30) ++ "\""]
         else
           ["worklogDate <= \"" ++ toISO t ++ "\""]
       | none => []) ++
      ["created >= \"" ++ toISO (subtractDays (fromD.getD today) 365) ++ "\""]
     else if jql = "" then
      ["worklogDate >= -30d",
       "created >= \"" ++ toISO (subtractDays today 365) ++ "\""]
     else [])
  let jql1 :=
    if filters ≠ [] then
      let filtersStr := joinAnd filters
      if jql ≠ "" then jql ++ " AND " ++ filtersStr else filtersStr
    else jql
  if jql1 ≠ "" then jql1 ++ " ORDER BY created DESC" else jql1

/-! ### `getCloudId` -/

/-- What escapes the `try` body: an axios transport error, or the
`UnauthorizedException` the body itself throws. -/
inductive Thrown where
  | http (e : HttpErr)
  | appUnauthorized (msg : String)
deriving DecidableEq, Repr

/-- `httpError.response?.status` as read by the catch block: an axios
error carries the upstream HTTP status; a NestJS `UnauthorizedException`
stores its body under `response` WITHOUT a `status` field (the body has
`statusCode`), so the read yields `undefined`. -/
def Thrown.respStatus : Thrown → Option Nat
  | .http e => e.status
  | .appUnauthorized _ => none

/-- The `try` body of `getCloudId` after a successful or failed
introspection request (`resources = response.data`). -/
def getCloudIdBody (resources : Option (List AccessibleResource)) :
    Except Thrown String :=
  match resources with
  | none => .error (.appUnauthorized "No accessible Jira resources found for this token")
  | some rs =>
    if rs.length = 0 then
      .error (.appUnauthorized "No accessible Jira resources found for this token")
    else
      match rs.find? (fun r => (r.scopes.getD []).contains "read:jira-work") with
      | none => .error (.appUnauthorized "No Jira resource found with required scopes")
      | some r => .ok r.id

/-- `getCloudId`: run the `try` body on the introspection outcome, then
the catch block.  The catch rethrows `UnauthorizedException` only when
`response?.status` is 401/403 and otherwise wraps the error generically —
including the body's own `UnauthorizedException` throws, whose
`response.status` is `undefined`. -/
def getCloudId (resp : Except HttpErr (Option (List AccessibleResource))) :
    Except ServiceError String :=
  let tryBody : Except Thrown String :=
    match resp with
    | .error e => .error (.http e)
    | .ok rs => getCloudIdBody rs
  match tryBody with
  | .ok v => .ok v
  | .error t =>
    if t.respStatus = some 401 ∨ t.respStatus = some 403 then
      .error (.unauthorized "Invalid or expired access token")
    else
      .error (.generic "Failed to get cloudId")

/-! ### `getWorklogs` (paginated fetch with degraded-failure policy) -/

/-- The `while (true)` pagination loop of `getWorklogs` over a page
oracle, with page size 1000.  Fuel bounds the iteration count (callers
pass ample fuel; the JS loop is unbounded). -/
def getWorklogsLoop (page : Nat → Except HttpErr WorklogPage) :
    Nat → Nat → List JiraWorklog → Except HttpErr (List JiraWorklog)
  | 0, _, acc => .ok acc
  | fuel + 1, startAt, acc =>
    match page startAt with
    | .error e => .error e
    | .ok p =>
      let worklogs := p.worklogs
      let acc' := acc ++ worklogs
      if p.total ≤ acc'.length ∨ worklogs.length < 1000 then .ok acc'
      else getWorklogsLoop page fuel (startAt + 1000) acc'

/-- `getWorklogs`: pagination loop wrapped in the catch block that maps a
401/403 failure to `UnauthorizedException` and swallows every other
failure into an empty list. -/
def getWorklogs (page : Nat → Except HttpErr WorklogPage) (fuel : Nat) :
    Except ServiceError (List JiraWorklog) :=
  match getWorklogsLoop page fuel 0 [] with
  | .ok ws => .ok ws
  | .error e =>
    if e.status = some 401 ∨ e.status = some 403 then
      .error (.unauthorized "Invalid or expired access token")
    else
      .ok []

/-! ### `getIssuesWithDateRangeSplit` -/

def WORKLOG_DATE_RANGE_LOOKBACK_DAYS : Nat := 7

/-- The dedup accumulator of the split fetcher: `(seen keys, issues)`;
`Set#add` order is immaterial for membership, the issue list appends. -/
def addIssue (st : List String × List JiraIssue) (issue : JiraIssue) :
    List String × List JiraIssue :=
  if st.1.contains issue.key then st
  else (issue.key :: st.1, st.2 ++ [issue])

/-- The `while (dateStr <= effectiveTo)` loop of
`getIssuesWithDateRangeSplit`.  `search` is the issue-search oracle
(`getIssues` keyed by the JQL string); alongside the merged issues the
model records every search call as a `(day, jql)` pair, in order. -/
def splitLoop (search : String → List JiraIssue) (baseJql : Option String)
    (projectKey : Option String) (username : Option String) (today : Int)
    (effectiveTo : Int) :
    Nat → Int → List String × List JiraIssue → List (Int × String) →
    List (Int × String) × List JiraIssue
  | 0, _, st, calls => (calls, st.2)
  | fuel + 1, dateStr, st, calls =>
    if dateStr ≤ effectiveTo then
      let jql := buildJql baseJql (some dateStr) (some dateStr) projectKey false username today
      let issues := search jql
      let st' := issues.foldl addIssue st
      let calls' := calls ++ [(dateStr, jql)]
      if dateStr = effectiveTo then (calls', st'.2)
      else splitLoop search baseJql projectKey username today effectiveTo fuel (nextDay dateStr) st' calls'
    else (calls, st.2)

/-- `getIssuesWithDateRangeSplit(baseJql, from, to, projectKey, ...)`:
widen the range by the 7-day lookback on both sides, then run one
day-by-day search per day of the effective window, deduplicating by
issue key.  Returns `(search calls made, merged issues)`. -/
def getIssuesWithDateRangeSplit (search : String → List JiraIssue)
    (baseJql : Option String) (fromD toD : Int) (projectKey : Option String)
    (username : Option String) (today : Int) :
    List (Int × String) × List JiraIssue :=
  let effectiveFrom := subtractDays fromD WORKLOG_DATE_RANGE_LOOKBACK_DAYS
  let effectiveTo := addDays toD WORKLOG_DATE_RANGE_LOOKBACK_DAYS
  splitLoop search baseJql projectKey username today effectiveTo
    ((effectiveTo - effectiveFrom).toNat + 1) effectiveFrom ([], []) []

/-- `n` consecutive days starting at `a`. -/
def windowDaysAux (a : Int) : Nat → List Int
  | 0 => []
  | n + 1 => a :: windowDaysAux (a + 1) n

/-- The days `a, a+1, ..., b` of a window (empty when `b < a`). -/
def windowDays (a b : Int) : List Int :=
  if a ≤ b then windowDaysAux a ((b - a).toNat + 1) else []

/-! ### Worklog collection phase of `getHoursByUser` -/

/-- The per-issue decision of the worklog-collection phase: use the
embedded worklog page when its declared total is already covered,
otherwise fetch the full set for that issue. -/
def issueWorklogsStep (fetch : String → Except ServiceError (List JiraWorklog))
    (issue : JiraIssue) : Except ServiceError (String × List JiraWorklog) :=
  match issue.fields.bind (fun f => f.worklog) with
  | some ew =>
    if ew.total ≤ ew.worklogs.length then .ok (issue.key, ew.worklogs)
    else (fetch issue.key).map (fun ws => (issue.key, ws))
  | none => (fetch issue.key).map (fun ws => (issue.key, ws))

/-- The worklog-collection phase of `getHoursByUser` over all issues.
`Promise.all` rejects when any fetch in a batch throws, so a thrown
`UnauthorizedException` aborts the collection; the fetches do not
otherwise interact, and each issue's entry is its own fetch result. -/
def collectWorklogs (issues : List JiraIssue)
    (fetch : String → Except ServiceError (List JiraWorklog)) :
    Except ServiceError (List (String × List JiraWorklog)) :=
  match issues with
  | [] => .ok []
  | issue :: rest =>
    match issueWorklogsStep fetch issue with
    | .error e => .error e
    | .ok r =>
      match collectWorklogs rest fetch with
      | .error e => .error e
      | .ok rs => .ok (r :: rs)

/-! ### Aggregation (`getHoursByUser` grouping and formatting) -/

/-- JS `a || b` on optional strings (`""` is falsy). -/
def jsOrStr : Option String → Option String → Option String
  | some a, b => if a = "" then b else some a
  | none, b => b

/-- `w.author.emailAddress || w.author.displayName`, combined with the
subsequent `if (!authorEmail) continue` falsiness check: `some` exactly
when the aggregation keeps the worklog, carrying the identifier used. -/
def resolveAuthor (a : WAuthor) : Option String :=
  match jsOrStr a.emailAddress a.displayName with
  | some s => if s = "" then none else some s
  | none => none

/-- `if (username && w.author.accountId !== username) continue`. -/
def usernameSkip (username : Option String) (a : WAuthor) : Bool :=
  match username with
  | none => false
  | some u => if u = "" then false else !(a.accountId == some u)

structure IssueEntry where
  issue : JiraIssue
  worklogs : List JiraWorklog
deriving DecidableEq, Repr

structure UserBucket where
  seconds : Nat
  issues : List (String × IssueEntry)
deriving DecidableEq, Repr

/-- `worklogsByUser`: user identifier → bucket, in insertion order (JS
object string keys and `Map` keys both iterate in insertion order). -/
abbrev AggState := List (String × UserBucket)

/-- Insertion-ordered upsert: apply `f` to the existing value, or to the
default `d` appended at the end on first insertion. -/
def updateAssoc {β : Type} (l : List (String × β)) (k : String) (d : β)
    (f : β → β) : List (String × β) :=
  match l with
  | [] => [(k, f d)]
  | (k', v) :: rest =>
    if k' = k then (k', f v) :: rest else (k', v) :: updateAssoc rest k d f

/-- The mutation a kept worklog performs on its author's bucket:
`seconds += w.timeSpentSeconds` and push `w` onto the issue's entry
(created with `worklogs: []` on first encounter). -/
def bucketAdd (issue : JiraIssue) (w : JiraWorklog) (b : UserBucket) : UserBucket :=
  { seconds := b.seconds + w.timeSpentSeconds,
    issues := updateAssoc b.issues issue.key ⟨issue, []⟩
      (fun e => { e with worklogs := e.worklogs ++ [w] }) }

/-- The body of the inner `for (const w of worklogs)` loop. -/
def processWorklog (fromD toD username : Option String) (issue : JiraIssue)
    (st : AggState) (w : JiraWorklog) : AggState :=
  if isWorklogInDateRange w fromD toD = false then st
  else
    match resolveAuthor w.author with
    | none => st
    | some authorEmail =>
      if usernameSkip username w.author then st
      else updateAssoc st authorEmail ⟨0, []⟩ (bucketAdd issue w)

/-- One iteration of the outer `for (const issue of issues)` loop
(`worklogsByIssue.get(issue.key) || []`). -/
def processIssue (fromD toD username : Option String)
    (wmap : List (String × List JiraWorklog)) (st : AggState)
    (issue : JiraIssue) : AggState :=
  ((wmap.lookup issue.key).getD []).foldl (processWorklog fromD toD username issue) st

/-- The grouping loops of `getHoursByUser` over already-collected
worklogs. -/
def groupWorklogs (issues : List JiraIssue)
    (wmap : List (String × List JiraWorklog))
    (fromD toD username : Option String) : AggState :=
  issues.foldl (processIssue fromD toD username wmap) []

/-- `(seconds / 3600).toFixed(2)`: seconds as centihours, rounded
half-up, rendered with exactly two decimals.  (JS `toFixed` resolves an
exact `.xx5` tie by the binary double value; no claim exercises a tie.) -/
def toFixed2 (seconds : Nat) : String :=
  let centi := (seconds + 18) / 36
  toString (centi / 100) ++ "." ++ String.mk (pad2L (toString (centi % 100)).toList)

structure FormattedFields where
  summary : String
  assignee : Option String
  worklog : List JiraWorklog
deriving DecidableEq, Repr

structure FormattedIssue where
  id : String
  key : String
  fields : FormattedFields
deriving DecidableEq, Repr

/-- One element of the response's `worklogs` array. -/
structure UserRecord where
  user : String
  hours : String
  worklogs : List JiraWorklog
  issues : List FormattedIssue
deriving DecidableEq, Repr

def joinAll {α : Type} : List (List α) → List α
  | [] => []
  | x :: xs => x ++ joinAll xs

/-- The response-formatting map of `getHoursByUser`: hours string,
flattened worklogs (`flatMap` over the issue map values), and per-issue
summaries carrying this user's worklogs. -/
def formatBucket (p : String × UserBucket) : UserRecord :=
  { user := p.1,
    hours := toFixed2 p.2.seconds,
    worklogs := joinAll (p.2.issues.map (fun q => q.2.worklogs)),
    issues := p.2.issues.map (fun q =>
      { id := q.2.issue.id, key := q.2.issue.key,
        fields := { summary := (q.2.issue.fields.bind (fun f => f.summary)).getD "",
                    assignee := q.2.issue.fields.bind (fun f => f.assignee),
                    worklog := q.2.worklogs } }) }

/-- The aggregation core of `getHoursByUser`: group then format. -/
def getHoursByUserCore (issues : List JiraIssue)
    (wmap : List (String × List JiraWorklog))
    (fromD toD username : Option String) : List UserRecord :=
  (groupWorklogs issues wmap fromD toD username).map formatBucket

/-! ### Specification-side descriptions used by the theorems -/

/-- The concatenation, in day order, of the per-day search results the
split fetcher sees over the effective window: the reference stream
against which deduplication is stated. -/
def splitStream (search : String → List JiraIssue) (baseJql : Option String)
    (fromD toD : Int) (projectKey : Option String) (username : Option String)
    (today : Int) : List JiraIssue :=
  joinAll ((windowDays (fromD - 7) (toD + 7)).map
    (fun d => search (buildJql baseJql (some d) (some d) projectKey false username today)))

/-- Invariant tying the split fetcher's seen-keys set to its issue
accumulator. -/
def keysOK (st : List String × List JiraIssue) : Prop :=
  ∀ k, k ∈ st.1 ↔ k ∈ st.2.map JiraIssue.key

/-- Seconds carried by one issue entry of a user bucket. -/
def entrySecs (q : String × IssueEntry) : Nat :=
  (q.2.worklogs.map JiraWorklog.timeSpentSeconds).sum

/-- A bucket's running total agrees with the worklogs stored in it. -/
def bucketSecsOK (b : UserBucket) : Prop :=
  b.seconds = (b.issues.map entrySecs).sum

/-- Every bucket of the aggregation state is internally consistent. -/
def stateOK (st : AggState) : Prop :=
  ∀ p ∈ st, bucketSecsOK p.2

/-! ## Theorems -/

/-- Claim C3: worklog date filtering uses only the `started` date, never
`created`: a worklog with `started = "2024-01-05"` is included for
`to = "2024-01-05"` whenever `from` is at most that date or absent, and
excluded for `to = "2024-01-04"`, for every value of `created` (and every
author); the comparison is inclusive and lexicographic on the
`YYYY-MM-DD` prefix of `started`. -/
theorem claim_C3_started_date_filter (acc em dn : Option String) (t : Nat)
    (created : Option String) (fr : Option String)
    (hfr : ∀ f, fr = some f → f ≤ "2024-01-05") :
    isWorklogInDateRange ⟨⟨acc, em, dn⟩, t, some "2024-01-05", created⟩ fr
        (some "2024-01-05") = true ∧
    isWorklogInDateRange ⟨⟨acc, em, dn⟩, t, some "2024-01-05", created⟩ fr
        (some "2024-01-04") = false := by
  have hdp : datePart "2024-01-05" = "2024-01-05" := by decide
  have hlt : ("2024-01-04" : String) < "2024-01-05" := by
    rw [String.lt_iff_toList_lt]; decide
  constructor
  · cases fr with
    | none => simp [isWorklogInDateRange, jsTruthyStr, hdp]
    | some f =>
      by_cases hf : f = ""
      · subst hf; simp [isWorklogInDateRange, jsTruthyStr, hdp]
      · have hle : f ≤ "2024-01-05" := hfr f rfl
        have h1 : ¬ (("2024-01-05" : String) < f) := not_lt.mpr hle
        have h2 : ¬ (("2024-01-05" : String) < "2024-01-05") := lt_irrefl _
        simp [isWorklogInDateRange, jsTruthyStr, hf, hdp, h1, h2]
  · cases fr with
    | none => simp [isWorklogInDateRange, jsTruthyStr, hdp, hlt]
    | some f =>
      by_cases hf : f = ""
      · subst hf; simp [isWorklogInDateRange, jsTruthyStr, hdp, hlt]
      · by_cases hlt2 : ("2024-01-05" : String) < f
        · simp [isWorklogInDateRange, jsTruthyStr, hf, hdp, hlt, hlt2]
        · simp [isWorklogInDateRange, jsTruthyStr, hf, hdp, hlt, hlt2]

/-- Witness for C3 at a concrete worklog whose `created` lies after the
`to` bound. -/
theorem claim_C3_witness :
    isWorklogInDateRange ⟨⟨none, some "a@ex.com", none⟩, 3600,
        some "2024-01-05", some "2024-01-07"⟩ (some "2024-01-01")
        (some "2024-01-05") = true ∧
    isWorklogInDateRange ⟨⟨none, some "a@ex.com", none⟩, 3600,
        some "2024-01-05", some "2024-01-07"⟩ (some "2024-01-01")
        (some "2024-01-04") = false :=
  claim_C3_started_date_filter none (some "a@ex.com") none 3600
    (some "2024-01-07") (some "2024-01-01")
    (by
      intro f hf
      cases hf
      rw [String.le_iff_toList_le]; decide)

/-- Claim C5, evaluated at its failing inputs (code bug): on a successful
introspection with an empty resource list, or with no resource carrying
the `read:jira-work` scope, `getCloudId` does NOT fail with the
`UnauthorizedException` the claim promises — its own catch block
intercepts that exception (whose `response` body has no `status` field)
and rethrows a generic error.  The positive half of the claim holds: with
at least one matching resource the first match's id is returned. -/
theorem claim_C5_cloudid_eval :
    getCloudId (.ok (some [])) = .error (.generic "Failed to get cloudId")
    ∧ getCloudId (.ok (some [⟨"id0", some ["write:jira-work"]⟩]))
        = .error (.generic "Failed to get cloudId")
    ∧ getCloudId (.ok (some [⟨"id1", some ["manage:jira"]⟩,
        ⟨"id2", some ["read:jira-work"]⟩, ⟨"id3", some ["read:jira-work"]⟩]))
        = .ok "id2" := by
  refine ⟨rfl, rfl, rfl⟩

/-- Counterexample for C6: with both date bounds absent the date filter
passes everything, so a worklog with no `started` date and a resolvable
author DOES contribute to its author's bucket and total (3600 seconds
become hours `"1.00"`). -/
theorem claim_C6_counterexample :
    getHoursByUserCore [⟨"1", "K-1", none⟩]
        [("K-1", [⟨⟨none, some "a@ex.com", none⟩, 3600, none, none⟩])]
        none none none
      = [⟨"a@ex.com", "1.00",
           [⟨⟨none, some "a@ex.com", none⟩, 3600, none, none⟩],
           [⟨"1", "K-1",
             ⟨"", none, [⟨⟨none, some "a@ex.com", none⟩, 3600, none, none⟩]⟩⟩]⟩] := by
  rfl

/-- Claim C6 as amended: a worklog whose `started` date is absent is
skipped by the aggregation — contributing to no user's bucket and no
total — whenever at least one (truthy) date bound is present; with both
bounds absent the date filter admits it (see the counterexample). -/
theorem claim_C6_started_absent_skipped (fromD toD username : Option String)
    (issue : JiraIssue) (st : AggState) (w : JiraWorklog)
    (hs : w.started = none)
    (hb : jsTruthyStr fromD = true ∨ jsTruthyStr toD = true) :
    processWorklog fromD toD username issue st w = st := by
  have hrange : isWorklogInDateRange w fromD toD = false := by
    rcases hb with h | h <;> simp [isWorklogInDateRange, h, hs]
  simp [processWorklog, hrange]

/-- Witness for the amended C6 at a concrete started-less worklog and a
concrete `from` bound. -/
theorem claim_C6_witness :
    processWorklog (some "2024-01-01") none none ⟨"1", "K-1", none⟩ []
        ⟨⟨none, some "a@ex.com", none⟩, 3600, none, none⟩ = [] :=
  claim_C6_started_absent_skipped (some "2024-01-01") none none
    ⟨"1", "K-1", none⟩ [] ⟨⟨none, some "a@ex.com", none⟩, 3600, none, none⟩
    rfl (Or.inl rfl)

/-- Claim C7: with an empty or absent base filter, no date bounds, no
project key and no user filter, the query builder emits exactly the
"logged in last 30 days" worklog clause AND the "created within the last
365 days" clause, joined with AND, with the ORDER BY
creation-time-descending suffix at the end. -/
theorem claim_C7_default_query (base : Option String) (today : Int)
    (hb : trimStr (base.getD "") = "") :
    buildJql base none none none true none today
      = "worklogDate >= -30d AND created >= \"" ++ toISO (today - 365) ++
          "\" ORDER BY created DESC" := by
  simp [buildJql, hb, joinAnd, subtractDays]
  show "worklogDate >= -30d" ++ " AND " ++
      ("created >= \"" ++ toISO (today - 365) ++ "\"") ++
      " ORDER BY created DESC" = _
  simp only [← String.append_assoc]
  rw [show ("worklogDate >= -30d" ++ " AND " ++ "created >= \"" : String)
      = "worklogDate >= -30d AND created >= \"" from rfl]
  simp only [String.append_assoc]
  rw [show ("\"" ++ " ORDER BY created DESC" : String)
      = "\" ORDER BY created DESC" from rfl]

/-- Witness for C7 with an absent base filter and `today` = 2024-01-15
(day 19737): the 365-day age limit lands on 2023-01-15. -/
theorem claim_C7_witness :
    buildJql none none none none true none 19737
      = "worklogDate >= -30d AND created >= \"2023-01-15\" ORDER BY created DESC" :=
  (claim_C7_default_query none 19737 (by decide)).trans (by decide)

/-- Counterexample for C8: `normalizeToYYYYMMDD` does not return every
non-date input unchanged — it trims surrounding whitespace, and it
rewrites three-part dash/slash inputs even when the parts are not
digits. -/
theorem claim_C8_counterexample :
    (normalizeToYYYYMMDD (some " x") = some "x" ∧ (" x" : String) ≠ "x")
    ∧ (normalizeToYYYYMMDD (some "ab-cd-efgh") = some "efgh-cd-ab"
        ∧ ("ab-cd-efgh" : String) ≠ "efgh-cd-ab") := by
  decide

/-- Claim C4: a worklog-fetch failure with upstream status other than
401/403 makes `getWorklogs` resolve to the empty list, while a 401/403
failure makes it throw `UnauthorizedException`; in the collection phase,
issues whose per-issue step succeeds all keep their own results (one
degraded issue cannot disturb its siblings), and an `unauthorized`
per-issue failure propagates and aborts the whole collection. -/
theorem claim_C4_degraded_fetch_policy :
    (∀ (page : Nat → Except HttpErr WorklogPage) (fuel : Nat) (e : HttpErr),
        getWorklogsLoop page fuel 0 [] = .error e →
        getWorklogs page fuel =
          if e.status = some 401 ∨ e.status = some 403 then
            .error (.unauthorized "Invalid or expired access token")
          else .ok [])
    ∧ (∀ (issues : List JiraIssue)
        (fetch : String → Except ServiceError (List JiraWorklog))
        (res : JiraIssue → String × List JiraWorklog),
        (∀ i ∈ issues, issueWorklogsStep fetch i = .ok (res i)) →
        collectWorklogs issues fetch = .ok (issues.map res))
    ∧ (∀ (pre : List JiraIssue) (issue : JiraIssue) (rest : List JiraIssue)
        (fetch : String → Except ServiceError (List JiraWorklog))
        (res : JiraIssue → String × List JiraWorklog) (m : String),
        (∀ i ∈ pre, issueWorklogsStep fetch i = .ok (res i)) →
        issueWorklogsStep fetch issue = .error (.unauthorized m) →
        collectWorklogs (pre ++ issue :: rest) fetch
          = .error (.unauthorized m)) := by
  refine ⟨?_, ?_, ?_⟩
  · intro page fuel e he
    by_cases h : e.status = some 401 ∨ e.status = some 403 <;>
      simp [getWorklogs, he, h]
  · intro issues fetch res h
    induction issues with
    | nil => rfl
    | cons a l ih =>
      have ha := h a (List.mem_cons_self a l)
      have hl := ih (fun i hi => h i (List.mem_cons_of_mem a hi))
      simp [collectWorklogs, ha, hl]
  · intro pre issue rest fetch res m hpre hissue
    induction pre with
    | nil => simp [collectWorklogs, hissue]
    | cons a l ih =>
      have ha := hpre a (List.mem_cons_self a l)
      have hl := ih fun i hi => hpre i (List.mem_cons_of_mem a hi)
      simp [collectWorklogs, ha, hl]

/-- Witness for C4: a 500-failing page oracle degrades to `.ok []`; two
sibling issues with an all-ok fetch each keep their own result; an
unauthorized per-issue failure aborts the collection. -/
theorem claim_C4_witness :
    getWorklogs (fun _ => .error ⟨some 500⟩) 3 = .ok []
    ∧ collectWorklogs [⟨"1", "K-1", none⟩, ⟨"2", "K-2", none⟩]
        (fun _ => .ok []) = .ok [("K-1", []), ("K-2", [])]
    ∧ collectWorklogs [⟨"1", "K-1", none⟩]
        (fun _ => .error (.unauthorized "x")) = .error (.unauthorized "x") := by
  refine ⟨?_, ?_, ?_⟩
  · have h := claim_C4_degraded_fetch_policy.1
      (fun _ => .error ⟨some 500⟩) 3 ⟨some 500⟩ rfl
    simpa using h
  · have h := claim_C4_degraded_fetch_policy.2.1
      [⟨"1", "K-1", none⟩, ⟨"2", "K-2", none⟩] (fun _ => .ok [])
      (fun i => (i.key, []))
      (by
        intro i hi
        simp only [List.mem_cons, List.not_mem_nil, or_false] at hi
        rcases hi with rfl | rfl <;> rfl)
    simpa using h
  · exact claim_C4_degraded_fetch_policy.2.2 [] ⟨"1", "K-1", none⟩ []
      (fun _ => .error (.unauthorized "x")) (fun i => (i.key, [])) "x"
      (by intro i hi; cases hi) rfl

/-! ### Window iteration and dedup lemmas for the split fetcher -/

theorem windowDays_of_not_le {a b : Int} (h : ¬ a ≤ b) : windowDays a b = [] := by
  simp [windowDays, h]

theorem windowDays_singleton (a : Int) : windowDays a a = [a] := by
  have h0 : (a - a).toNat = 0 := by omega
  simp [windowDays, h0, windowDaysAux]

theorem windowDays_cons {a b : Int} (h : a ≤ b) :
    windowDays a b = a :: windowDays (a + 1) b := by
  by_cases h2 : a + 1 ≤ b
  · have hn : (b - a).toNat = (b - (a + 1)).toNat + 1 := by omega
    simp [windowDays, if_pos h, if_pos h2, hn, windowDaysAux]
  · have hab : a = b := by omega
    subst hab
    rw [windowDays_singleton, windowDays_of_not_le h2]

/-- Characterization of the split fetcher's day loop: with enough fuel,
starting inside the window it makes exactly one search call per day of
`[dateStr, effectiveTo]` in order, and its issue accumulator is the fold
of the dedup step over the concatenated per-day results. -/
theorem splitLoop_spec (search : String → List JiraIssue)
    (b pk u : Option String) (today eTo : Int) :
    ∀ (fuel : Nat) (dateStr : Int) (st : List String × List JiraIssue)
      (calls : List (Int × String)),
      dateStr ≤ eTo → (eTo - dateStr).toNat < fuel →
      splitLoop search b pk u today eTo fuel dateStr st calls
        = (calls ++ (windowDays dateStr eTo).map
              (fun d => (d, buildJql b (some d) (some d) pk false u today)),
           ((joinAll ((windowDays dateStr eTo).map
              (fun d => search (buildJql b (some d) (some d) pk false u today)))).foldl
              addIssue st).2) := by
  intro fuel
  induction fuel with
  | zero => intro dateStr st calls h1 h2; omega
  | succ fuel ih =>
    intro dateStr st calls h1 h2
    by_cases heq : dateStr = eTo
    · subst heq
      simp [splitLoop, if_pos h1, windowDays_singleton, joinAll]
    · have h1' : dateStr + 1 ≤ eTo := by omega
      have h2' : (eTo - (dateStr + 1)).toNat < fuel := by omega
      rw [windowDays_cons h1]
      simp only [splitLoop, if_pos h1, heq, ite_false, nextDay,
        ih (dateStr + 1) _ _ h1' h2', List.map_cons, joinAll, List.foldl_append]
      simp

theorem split_issues_eq (search : String → List JiraIssue)
    (base : Option String) (fromD toD : Int) (pk u : Option String)
    (today : Int) :
    (getIssuesWithDateRangeSplit search base fromD toD pk u today).2
      = ((splitStream search base fromD toD pk u today).foldl addIssue ([], [])).2 := by
  unfold getIssuesWithDateRangeSplit splitStream
  simp only [subtractDays, addDays, WORKLOG_DATE_RANGE_LOOKBACK_DAYS, Nat.cast_ofNat]
  by_cases h : fromD - 7 ≤ toD + 7
  · rw [splitLoop_spec search base pk u today (toD + 7) _ (fromD - 7) ([], []) []
      h (by omega)]
  · rw [windowDays_of_not_le h]
    simp [splitLoop, h, joinAll]

theorem addIssue_of_contains (st : List String × List JiraIssue)
    (i : JiraIssue) (hc : st.1.contains i.key = true) : addIssue st i = st := by
  unfold addIssue
  rw [if_pos hc]

theorem addIssue_of_not_contains (st : List String × List JiraIssue)
    (i : JiraIssue) (hc : ¬ st.1.contains i.key = true) :
    addIssue st i = (i.key :: st.1, st.2 ++ [i]) := by
  unfold addIssue
  rw [if_neg hc]

theorem addIssue_keysOK (st : List String × List JiraIssue) (i : JiraIssue)
    (h : keysOK st) : keysOK (addIssue st i) := by
  by_cases hc : st.1.contains i.key = true
  · rw [addIssue_of_contains st i hc]; exact h
  · rw [addIssue_of_not_contains st i hc]
    intro k
    simp only [List.mem_cons, List.map_append, List.mem_append, List.map_cons,
      List.map_nil, List.mem_singleton]
    rw [h k]
    tauto

theorem addIssue_key_mem (st : List String × List JiraIssue) (i : JiraIssue)
    (h : keysOK st) : i.key ∈ (addIssue st i).2.map JiraIssue.key := by
  by_cases hc : st.1.contains i.key = true
  · rw [addIssue_of_contains st i hc]
    exact (h i.key).mp (List.elem_iff.mp hc)
  · rw [addIssue_of_not_contains st i hc]
    simp

theorem foldl_addIssue_keysOK (L : List JiraIssue) :
    ∀ st, keysOK st → keysOK (L.foldl addIssue st) := by
  induction L with
  | nil => intro st h; exact h
  | cons a l ih => intro st h; exact ih (addIssue st a) (addIssue_keysOK st a h)

theorem foldl_addIssue_sub (L : List JiraIssue) :
    ∀ st, ∃ suf, (L.foldl addIssue st).2 = st.2 ++ suf ∧ ∀ j ∈ suf, j ∈ L := by
  induction L with
  | nil => intro st; exact ⟨[], by simp, by simp⟩
  | cons a l ih =>
    intro st
    rw [List.foldl_cons]
    by_cases hc : st.1.contains a.key = true
    · obtain ⟨suf, hsuf, hmem⟩ := ih (addIssue st a)
      rw [addIssue_of_contains st a hc] at hsuf ⊢
      exact ⟨suf, hsuf, fun j hj => List.mem_cons_of_mem a (hmem j hj)⟩
    · obtain ⟨suf, hsuf, hmem⟩ := ih (addIssue st a)
      rw [addIssue_of_not_contains st a hc] at hsuf
      refine ⟨a :: suf, ?_, fun j hj => ?_⟩
      · rw [addIssue_of_not_contains st a hc, hsuf]
        simp
      · rcases List.mem_cons.mp hj with h | hj'
        · rw [h]
          exact List.mem_cons_self a l
        · exact List.mem_cons_of_mem a (hmem j hj')

theorem foldl_addIssue_keys_mono (L : List JiraIssue)
    (st : List String × List JiraIssue) (k : String)
    (h : k ∈ st.2.map JiraIssue.key) :
    k ∈ (L.foldl addIssue st).2.map JiraIssue.key := by
  obtain ⟨suf, hsuf, -⟩ := foldl_addIssue_sub L st
  rw [hsuf, List.map_append]
  exact List.mem_append_left _ h

theorem addIssue_nodup (st : List String × List JiraIssue) (i : JiraIssue)
    (hk : keysOK st) (hn : (st.2.map JiraIssue.key).Nodup) :
    ((addIssue st i).2.map JiraIssue.key).Nodup := by
  by_cases hc : st.1.contains i.key = true
  · rw [addIssue_of_contains st i hc]; exact hn
  · have hnot : i.key ∉ st.2.map JiraIssue.key := by
      intro hmem
      exact hc (List.elem_iff.mpr ((hk i.key).mpr hmem))
    rw [addIssue_of_not_contains st i hc]
    simp only [List.map_append, List.map_cons, List.map_nil, List.nodup_append]
    refine ⟨hn, List.nodup_singleton _, ?_⟩
    intro a ha hmem
    rw [List.mem_singleton] at hmem
    exact hnot (hmem ▸ ha)

theorem foldl_addIssue_nodup (L : List JiraIssue) :
    ∀ st, keysOK st → (st.2.map JiraIssue.key).Nodup →
      ((L.foldl addIssue st).2.map JiraIssue.key).Nodup := by
  induction L with
  | nil => intro st _ hn; exact hn
  | cons a l ih =>
    intro st hk hn
    exact ih (addIssue st a) (addIssue_keysOK st a hk) (addIssue_nodup st a hk hn)

theorem foldl_addIssue_covers (L : List JiraIssue) :
    ∀ st, keysOK st → ∀ j ∈ L,
      j.key ∈ (L.foldl addIssue st).2.map JiraIssue.key := by
  induction L with
  | nil => intro st _ j hj; cases hj
  | cons a l ih =>
    intro st hst j hj
    rcases List.mem_cons.mp hj with rfl | hj'
    · exact foldl_addIssue_keys_mono l (addIssue st j) j.key (addIssue_key_mem st j hst)
    · exact ih (addIssue st a) (addIssue_keysOK st a hst) j hj'

theorem foldl_addIssue_first (L : List JiraIssue) :
    ∀ st, keysOK st → ∀ i ∈ (L.foldl addIssue st).2,
      i ∈ st.2 ∨ (i.key ∉ st.2.map JiraIssue.key ∧
        L.find? (fun j => j.key == i.key) = some i) := by
  induction L with
  | nil => intro st _ i hi; exact Or.inl hi
  | cons a l ih =>
    intro st hst i hi
    have hkey_a : a.key ∈ (addIssue st a).2.map JiraIssue.key :=
      addIssue_key_mem st a hst
    rcases ih (addIssue st a) (addIssue_keysOK st a hst) i hi with hmem | ⟨hnot, hfind⟩
    · by_cases hc : st.1.contains a.key = true
      · rw [addIssue_of_contains st a hc] at hmem
        exact Or.inl hmem
      · rw [addIssue_of_not_contains st a hc] at hmem
        rcases List.mem_append.mp hmem with h | h
        · exact Or.inl h
        · have : i = a := by simpa using h
          subst this
          refine Or.inr ⟨?_, ?_⟩
          · intro hmem'
            exact hc (List.elem_iff.mpr ((hst i.key).mpr hmem'))
          · exact List.find?_cons_of_pos _ (by simp)
    · have hsub : st.2 ⊆ (addIssue st a).2 := by
        by_cases hc : st.1.contains a.key = true
        · rw [addIssue_of_contains st a hc]
          exact fun x hx => hx
        · rw [addIssue_of_not_contains st a hc]
          exact List.subset_append_left _ _
      have hnot_st : i.key ∉ st.2.map JiraIssue.key := by
        intro hmem'
        rcases List.mem_map.mp hmem' with ⟨x, hx, hkx⟩
        exact hnot (List.mem_map.mpr ⟨x, hsub hx, hkx⟩)
      have hne : (a.key == i.key) = false := by
        refine beq_eq_false_iff_ne.mpr fun heq => hnot ?_
        rw [← heq]
        exact hkey_a
      refine Or.inr ⟨hnot_st, ?_⟩
      rw [List.find?_cons, hne]
      exact hfind

/-- Claim C1: for `from <= to`, the range-split fetcher iterates exactly
the calendar days of the effective window `[from - 7, to + 7]` inclusive,
issuing exactly one issue-search call per day — with that day as both the
`from` and the `to` bound of the per-day query, built with
`expandRange = false` — and no other search calls. -/
theorem claim_C1_day_by_day_window (search : String → List JiraIssue)
    (base pk u : Option String) (today : Int) (fromD toD : Int)
    (h : fromD ≤ toD) :
    (getIssuesWithDateRangeSplit search base fromD toD pk u today).1
      = (windowDays (fromD - 7) (toD + 7)).map
          (fun d => (d, buildJql base (some d) (some d) pk false u today)) := by
  have h1 : fromD - 7 ≤ toD + 7 := by omega
  unfold getIssuesWithDateRangeSplit
  simp only [subtractDays, addDays, WORKLOG_DATE_RANGE_LOOKBACK_DAYS, Nat.cast_ofNat]
  rw [splitLoop_spec search base pk u today (toD + 7) _ (fromD - 7) ([], []) []
    h1 (by omega)]
  simp

/-- Witness for C1 at `from = to = 0`: the fifteen days `-7 .. 7` are
each queried exactly once, in order. -/
theorem claim_C1_witness :
    (getIssuesWithDateRangeSplit (fun _ => []) none 0 0 none none 0).1
      = (windowDays (-7) 7).map
          (fun d => (d, buildJql none (some d) (some d) none false none 0))
    ∧ ((getIssuesWithDateRangeSplit (fun _ => []) none 0 0 none none 0).1).map
          Prod.fst
        = [-7, -6, -5, -4, -3, -2, -1, 0, 1, 2, 3, 4, 5, 6, 7] := by
  constructor
  · have h := claim_C1_day_by_day_window (fun _ => []) none none none 0 0 0
      (by decide)
    simpa using h
  · decide

/-- Claim C2: for every per-day result sequence, the list returned by
the range-split fetcher contains each issue key at most once; every
returned issue is the first occurrence of its key in the concatenated
day-by-day result stream (later duplicates are discarded), and every key
of the stream is represented. -/
theorem claim_C2_dedup_keeps_first (search : String → List JiraIssue)
    (base pk u : Option String) (today : Int) (fromD toD : Int) :
    (((getIssuesWithDateRangeSplit search base fromD toD pk u today).2).map
        JiraIssue.key).Nodup
    ∧ (∀ i ∈ (getIssuesWithDateRangeSplit search base fromD toD pk u today).2,
        (splitStream search base fromD toD pk u today).find?
            (fun j => j.key == i.key) = some i)
    ∧ (∀ j ∈ splitStream search base fromD toD pk u today,
        ∃ i ∈ (getIssuesWithDateRangeSplit search base fromD toD pk u today).2,
          i.key = j.key) := by
  have hk0 : keysOK ([], []) := by intro k; simp
  have he := split_issues_eq search base fromD toD pk u today
  refine ⟨?_, ?_, ?_⟩
  · rw [he]
    exact foldl_addIssue_nodup _ _ hk0 (by simp)
  · intro i hi
    rw [he] at hi
    rcases foldl_addIssue_first _ _ hk0 i hi with hmem | ⟨-, hf⟩
    · cases hmem
    · exact hf
  · intro j hj
    have hcov := foldl_addIssue_covers (splitStream search base fromD toD pk u today)
      ([], []) hk0 j hj
    rcases List.mem_map.mp hcov with ⟨i, hi, hkey⟩
    exact ⟨i, by rw [he]; exact hi, hkey⟩

set_option maxRecDepth 8000 in
/-- Witness for C2: an oracle answering every day-query with a duplicate
key keeps only the first occurrence, and the merged keys are distinct. -/
theorem claim_C2_witness :
    ((((getIssuesWithDateRangeSplit
          (fun _ => [⟨"1", "K-A", none⟩, ⟨"2", "K-B", none⟩, ⟨"3", "K-A", none⟩])
          none 0 0 none none 0).2)).map JiraIssue.key).Nodup
    ∧ (splitStream
          (fun _ => [⟨"1", "K-A", none⟩, ⟨"2", "K-B", none⟩, ⟨"3", "K-A", none⟩])
          none 0 0 none none 0).find?
          (fun j => j.key == (⟨"1", "K-A", none⟩ : JiraIssue).key)
        = some ⟨"1", "K-A", none⟩ := by
  constructor
  · exact (claim_C2_dedup_keeps_first
      (fun _ => [⟨"1", "K-A", none⟩, ⟨"2", "K-B", none⟩, ⟨"3", "K-A", none⟩])
      none none none 0 0 0).1
  · exact (claim_C2_dedup_keeps_first
      (fun _ => [⟨"1", "K-A", none⟩, ⟨"2", "K-B", none⟩, ⟨"3", "K-A", none⟩])
      none none none 0 0 0).2.1 ⟨"1", "K-A", none⟩ (by decide)

/-! ### Aggregation bookkeeping lemmas -/

theorem joinAll_map_sum {α : Type} (g : α → Nat) :
    ∀ L : List (List α),
      ((joinAll L).map g).sum = (L.map (fun l => (l.map g).sum)).sum := by
  intro L
  induction L with
  | nil => rfl
  | cons x xs ih => simp [joinAll, ih]

theorem updateAssoc_forall {β : Type} (P : β → Prop) (k : String) (d : β)
    (f : β → β) (hf : ∀ v, P v → P (f v)) (hd : P (f d)) :
    ∀ l : List (String × β), (∀ p ∈ l, P p.2) →
      ∀ p ∈ updateAssoc l k d f, P p.2 := by
  intro l
  induction l with
  | nil =>
    intro _ p hp
    rw [List.mem_singleton.mp hp]
    exact hd
  | cons a rest ih =>
    obtain ⟨ak, av⟩ := a
    intro hl p hp
    simp only [updateAssoc] at hp
    by_cases hk : ak = k
    · rw [if_pos hk] at hp
      rcases List.mem_cons.mp hp with h | h
      · rw [h]
        exact hf av (hl (ak, av) (List.mem_cons_self _ _))
      · exact hl p (List.mem_cons_of_mem _ h)
    · rw [if_neg hk] at hp
      rcases List.mem_cons.mp hp with h | h
      · rw [h]
        exact hl (ak, av) (List.mem_cons_self _ _)
      · exact ih (fun q hq => hl q (List.mem_cons_of_mem _ hq)) p h

theorem sum_entrySecs_update (issues : List (String × IssueEntry))
    (kk : String) (i : JiraIssue) (w : JiraWorklog) :
    ((updateAssoc issues kk ⟨i, []⟩
        (fun e => { e with worklogs := e.worklogs ++ [w] })).map entrySecs).sum
      = (issues.map entrySecs).sum + w.timeSpentSeconds := by
  induction issues with
  | nil => simp [updateAssoc, entrySecs]
  | cons a rest ih =>
    obtain ⟨ak, av⟩ := a
    simp only [updateAssoc]
    by_cases hk : ak = kk
    · rw [if_pos hk]
      simp [entrySecs]
      omega
    · rw [if_neg hk]
      simp only [List.map_cons, List.sum_cons, ih]
      omega

theorem bucketAdd_pres (issue : JiraIssue) (w : JiraWorklog) (b : UserBucket)
    (hb : bucketSecsOK b) : bucketSecsOK (bucketAdd issue w b) := by
  unfold bucketSecsOK bucketAdd at *
  simp only
  rw [sum_entrySecs_update]
  omega

theorem processWorklog_pres (fromD toD username : Option String)
    (issue : JiraIssue) (st : AggState) (w : JiraWorklog)
    (h : stateOK st) :
    stateOK (processWorklog fromD toD username issue st w) := by
  unfold processWorklog
  by_cases h1 : isWorklogInDateRange w fromD toD = false
  · rw [if_pos h1]; exact h
  · rw [if_neg h1]
    cases hr : resolveAuthor w.author with
    | none => exact h
    | some a =>
      show stateOK (if usernameSkip username w.author = true then st
        else updateAssoc st a ⟨0, []⟩ (bucketAdd issue w))
      by_cases h2 : usernameSkip username w.author = true
      · rw [if_pos h2]; exact h
      · rw [if_neg h2]
        intro p hp
        exact updateAssoc_forall bucketSecsOK a ⟨0, []⟩ (bucketAdd issue w)
          (fun v hv => bucketAdd_pres issue w v hv)
          (bucketAdd_pres issue w ⟨0, []⟩ (by simp [bucketSecsOK])) st h p hp

theorem foldl_stateOK {α : Type} (f : AggState → α → AggState)
    (hf : ∀ s a, stateOK s → stateOK (f s a)) :
    ∀ (l : List α) (s : AggState), stateOK s → stateOK (l.foldl f s) := by
  intro l
  induction l with
  | nil => intro s h; exact h
  | cons a rest ih => intro s h; exact ih (f s a) (hf s a h)

theorem groupWorklogs_stateOK (issues : List JiraIssue)
    (wmap : List (String × List JiraWorklog))
    (fromD toD username : Option String) :
    stateOK (groupWorklogs issues wmap fromD toD username) := by
  unfold groupWorklogs
  refine foldl_stateOK _ ?_ issues [] ?_
  · intro s issue hs
    unfold processIssue
    exact foldl_stateOK _
      (fun s' w hs' => processWorklog_pres fromD toD username issue s' w hs')
      _ s hs
  · intro p hp; cases hp

/-- Claim C10: in every response record, the flattened `worklogs` list is
exactly the concatenation, in issue-discovery order, of the per-issue
worklog lists carried by that record's `issues` entries, and the record's
bucket total (the seconds the hours string is formatted from) equals the
sum of `timeSpentSeconds` over exactly those worklogs. -/
theorem claim_C10_record_consistency (issues : List JiraIssue)
    (wmap : List (String × List JiraWorklog))
    (fromD toD username : Option String) (r : UserRecord)
    (hr : r ∈ getHoursByUserCore issues wmap fromD toD username) :
    r.worklogs = joinAll (r.issues.map (fun fi => fi.fields.worklog))
    ∧ ∃ b : UserBucket,
        (r.user, b) ∈ groupWorklogs issues wmap fromD toD username
        ∧ r.hours = toFixed2 b.seconds
        ∧ b.seconds = (r.worklogs.map JiraWorklog.timeSpentSeconds).sum := by
  unfold getHoursByUserCore at hr
  rcases List.mem_map.mp hr with ⟨p, hp, hfmt⟩
  obtain ⟨u, b⟩ := p
  have hok : bucketSecsOK b :=
    groupWorklogs_stateOK issues wmap fromD toD username (u, b) hp
  subst hfmt
  constructor
  · simp only [formatBucket, List.map_map]
    rfl
  · refine ⟨b, hp, rfl, ?_⟩
    rw [hok]
    show _ = ((joinAll (b.issues.map (fun q => q.2.worklogs))).map _).sum
    rw [joinAll_map_sum, List.map_map]
    rfl

/-- Witness for C10: one user across two issues; the flattened list is
the concatenation of the two per-issue lists and carries the total. -/
theorem claim_C10_witness :
    (⟨"b@ex.com", "1.00",
        [⟨⟨none, some "b@ex.com", none⟩, 1800, some "2024-01-02", none⟩,
         ⟨⟨none, some "b@ex.com", none⟩, 1800, some "2024-01-03", none⟩],
        [⟨"1", "K-1", ⟨"", none,
            [⟨⟨none, some "b@ex.com", none⟩, 1800, some "2024-01-02", none⟩]⟩⟩,
         ⟨"2", "K-2", ⟨"", none,
            [⟨⟨none, some "b@ex.com", none⟩, 1800, some "2024-01-03", none⟩]⟩⟩]⟩
      : UserRecord).worklogs
      = joinAll ((⟨"b@ex.com", "1.00",
          [⟨⟨none, some "b@ex.com", none⟩, 1800, some "2024-01-02", none⟩,
           ⟨⟨none, some "b@ex.com", none⟩, 1800, some "2024-01-03", none⟩],
          [⟨"1", "K-1", ⟨"", none,
              [⟨⟨none, some "b@ex.com", none⟩, 1800, some "2024-01-02", none⟩]⟩⟩,
           ⟨"2", "K-2", ⟨"", none,
              [⟨⟨none, some "b@ex.com", none⟩, 1800, some "2024-01-03", none⟩]⟩⟩]⟩
        : UserRecord).issues.map (fun fi => fi.fields.worklog))
    ∧ ∃ b : UserBucket,
        ("b@ex.com", b) ∈ groupWorklogs
          [⟨"1", "K-1", none⟩, ⟨"2", "K-2", none⟩]
          [("K-1", [⟨⟨none, some "b@ex.com", none⟩, 1800, some "2024-01-02", none⟩]),
           ("K-2", [⟨⟨none, some "b@ex.com", none⟩, 1800, some "2024-01-03", none⟩])]
          none none none
        ∧ "1.00" = toFixed2 b.seconds
        ∧ b.seconds = 3600 := by
  have h := claim_C10_record_consistency
    [⟨"1", "K-1", none⟩, ⟨"2", "K-2", none⟩]
    [("K-1", [⟨⟨none, some "b@ex.com", none⟩, 1800, some "2024-01-02", none⟩]),
     ("K-2", [⟨⟨none, some "b@ex.com", none⟩, 1800, some "2024-01-03", none⟩])]
    none none none
    ⟨"b@ex.com", "1.00",
      [⟨⟨none, some "b@ex.com", none⟩, 1800, some "2024-01-02", none⟩,
       ⟨⟨none, some "b@ex.com", none⟩, 1800, some "2024-01-03", none⟩],
      [⟨"1", "K-1", ⟨"", none,
          [⟨⟨none, some "b@ex.com", none⟩, 1800, some "2024-01-02", none⟩]⟩⟩,
       ⟨"2", "K-2", ⟨"", none,
          [⟨⟨none, some "b@ex.com", none⟩, 1800, some "2024-01-03", none⟩]⟩⟩]⟩
    (by decide)
  exact ⟨h.1, h.2.imp (fun b hb => ⟨hb.1, hb.2.1, by
    have := hb.2.2
    simpa using this⟩)⟩

/-- Claim C9: every user record's hours string is the record's total
seconds — accumulated as an integer — divided by 3600 and rendered with
exactly two decimals; in particular 3661 seconds render as `"1.02"`. -/
theorem claim_C9_hours_formatting (issues : List JiraIssue)
    (wmap : List (String × List JiraWorklog))
    (fromD toD username : Option String) (r : UserRecord)
    (hr : r ∈ getHoursByUserCore issues wmap fromD toD username) :
    r.hours = toFixed2 ((r.worklogs.map JiraWorklog.timeSpentSeconds).sum)
    ∧ toFixed2 3661 = "1.02" := by
  unfold getHoursByUserCore at hr
  rcases List.mem_map.mp hr with ⟨p, hp, hfmt⟩
  obtain ⟨u, b⟩ := p
  have hok : bucketSecsOK b :=
    groupWorklogs_stateOK issues wmap fromD toD username (u, b) hp
  subst hfmt
  constructor
  · show toFixed2 b.seconds = _
    congr 1
    rw [hok]
    show _ = ((joinAll (b.issues.map (fun q => q.2.worklogs))).map _).sum
    rw [joinAll_map_sum, List.map_map]
    rfl
  · rfl

/-- Witness for C9: a user with worklogs of 3600 and 61 seconds gets the
hours string `"1.02"`. -/
theorem claim_C9_witness :
    ("1.02" : String)
      = toFixed2 ((([⟨⟨none, some "a@ex.com", none⟩, 3600, some "2024-01-02", none⟩,
          ⟨⟨none, some "a@ex.com", none⟩, 61, some "2024-01-03", none⟩]
            : List JiraWorklog).map JiraWorklog.timeSpentSeconds).sum)
    ∧ toFixed2 3661 = "1.02" := by
  have h := claim_C9_hours_formatting [⟨"1", "K-1", none⟩]
    [("K-1", [⟨⟨none, some "a@ex.com", none⟩, 3600, some "2024-01-02", none⟩,
              ⟨⟨none, some "a@ex.com", none⟩, 61, some "2024-01-03", none⟩])]
    none none none
    ⟨"a@ex.com", "1.02",
      [⟨⟨none, some "a@ex.com", none⟩, 3600, some "2024-01-02", none⟩,
       ⟨⟨none, some "a@ex.com", none⟩, 61, some "2024-01-03", none⟩],
      [⟨"1", "K-1", ⟨"", none,
          [⟨⟨none, some "a@ex.com", none⟩, 3600, some "2024-01-02", none⟩,
           ⟨⟨none, some "a@ex.com", none⟩, 61, some "2024-01-03", none⟩]⟩⟩]⟩
    (by decide)
  exact ⟨h.1, h.2⟩

/-! ### Character-class lemmas for the date normalizer -/

theorem ws_char_cases (c : Char) (h : isWSChar c = true) :
    c = ' ' ∨ c = '\t' ∨ c = '\n' ∨ c = '\r' := by
  simp only [isWSChar, Bool.or_eq_true, decide_eq_true_eq] at h
  tauto

theorem sep_char_cases (c : Char) (h : isSepChar c = true) :
    c = '-' ∨ c = '/' := by
  simp only [isSepChar, Bool.or_eq_true, decide_eq_true_eq] at h
  tauto

theorem digit_not_ws (c : Char) (h : isDigitCh c = true) : isWSChar c = false := by
  simp only [isDigitCh, Bool.and_eq_true, decide_eq_true_eq] at h
  by_contra hne
  have hws := ws_char_cases c (by revert hne; cases isWSChar c <;> simp)
  rcases hws with rfl | rfl | rfl | rfl <;> revert h <;> decide

theorem sep_not_ws (c : Char) (h : isSepChar c = true) : isWSChar c = false := by
  rcases sep_char_cases c h with rfl | rfl <;> decide

theorem digit_not_sep (c : Char) (h : isDigitCh c = true) : isSepChar c = false := by
  simp only [isDigitCh, Bool.and_eq_true, decide_eq_true_eq] at h
  by_contra hne
  have hsp := sep_char_cases c (by revert hne; cases isSepChar c <;> simp)
  rcases hsp with rfl | rfl <;> revert h <;> decide

theorem trimChars_eq_self (l : List Char) (h : ∀ c ∈ l, isWSChar c = false) :
    trimChars l = l := by
  have h1 : ∀ (m : List Char), (∀ c ∈ m, isWSChar c = false) →
      m.dropWhile isWSChar = m := by
    intro m hm
    cases m with
    | nil => rfl
    | cons a t =>
      rw [List.dropWhile_cons, hm a (List.mem_cons_self a t)]
      simp
  unfold trimChars
  rw [h1 l h, h1 _ (fun c hc => h c (List.mem_reverse.mp hc)), List.reverse_reverse]

theorem normalize_iso_unchanged :
    ∀ s : String, isoShapeTest s.toList = true →
      normalizeToYYYYMMDD (some s) = some s := by
  intro s hiso
  have hiso' := hiso
  simp only [isoShapeTest, Bool.and_eq_true, decide_eq_true_eq] at hiso
  obtain ⟨⟨⟨⟨⟨⟨⟨⟨⟨⟨hlen, h0⟩, h1⟩, h2⟩, h3⟩, h4⟩, h5⟩, h6⟩, h7⟩, h8⟩, h9⟩ := hiso
  have hallc : ∀ c ∈ s.toList, isWSChar c = false := by
    intro c hc
    rcases List.mem_iff_getElem.mp hc with ⟨i, hi, hgi⟩
    rw [hlen] at hi
    have hgd : ∀ (j : Nat) (hj : j < s.toList.length),
        s.toList.getD j ' ' = s.toList[j] :=
      fun j hj => List.getD_eq_getElem s.toList ' ' hj
    interval_cases i <;> rw [← hgi] <;> rw [← hgd _ (by omega)]
    · exact digit_not_ws _ h0
    · exact digit_not_ws _ h1
    · exact digit_not_ws _ h2
    · exact digit_not_ws _ h3
    · rw [h4]; decide
    · exact digit_not_ws _ h5
    · exact digit_not_ws _ h6
    · rw [h7]; decide
    · exact digit_not_ws _ h8
    · exact digit_not_ws _ h9
  have hne : s ≠ "" := by
    intro he
    rw [he] at hlen
    simp at hlen
  simp only [normalizeToYYYYMMDD]
  rw [if_neg hne, trimChars_eq_self _ hallc, if_pos hiso']
  rfl

theorem normalize_euro_rewrite :
    ∀ (d1 : Char) (d2 : Option Char) (m1 : Char) (m2 : Option Char)
      (y1 y2 y3 y4 s1 s2 : Char),
      isSepChar s1 = true → isSepChar s2 = true →
      (∀ c ∈ (d1 :: d2.toList) ++ (m1 :: m2.toList) ++ [y1, y2, y3, y4],
        isDigitCh c = true) →
      normalizeToYYYYMMDD (some (String.mk
          ((d1 :: d2.toList) ++ s1 :: (m1 :: m2.toList) ++ s2 :: [y1, y2, y3, y4])))
        = some (String.mk
          ([y1, y2, y3, y4] ++ '-' :: pad2L (m1 :: m2.toList)
            ++ '-' :: pad2L (d1 :: d2.toList))) := by
  intro d1 d2 m1 m2 y1 y2 y3 y4 s1 s2 hs1 hs2 hdig
  have hd1 : isDigitCh d1 = true := hdig d1 (by simp)
  have hm1 : isDigitCh m1 = true := hdig m1 (by simp)
  have hy1 : isDigitCh y1 = true := hdig y1 (by simp)
  have hy2 : isDigitCh y2 = true := hdig y2 (by simp)
  have hy3 : isDigitCh y3 = true := hdig y3 (by simp)
  have hy4 : isDigitCh y4 = true := hdig y4 (by simp)
  rcases d2 with _ | d2 <;> rcases m2 with _ | m2
  · show normalizeToYYYYMMDD (some (String.mk
        ([d1] ++ s1 :: [m1] ++ s2 :: [y1, y2, y3, y4])))
      = some (String.mk ([y1, y2, y3, y4] ++ '-' :: pad2L [m1] ++ '-' :: pad2L [d1]))
    have hne : String.mk ([d1] ++ s1 :: [m1] ++ s2 :: [y1, y2, y3, y4]) ≠ "" := by
      intro he
      have := congrArg String.data he
      simp at this
    have hallc : ∀ c ∈ ([d1] ++ s1 :: [m1] ++ s2 :: [y1, y2, y3, y4]),
        isWSChar c = false := by
      intro c hc
      have hc2 : c = d1 ∨ c = s1 ∨ c = m1 ∨ c = s2 ∨ c = y1 ∨ c = y2 ∨ c = y3
          ∨ c = y4 := by
        simp only [List.mem_append, List.mem_cons, List.mem_singleton,
          List.not_mem_nil, or_false] at hc
        tauto
      rcases hc2 with rfl | rfl | rfl | rfl | rfl | rfl | rfl | rfl
      · exact digit_not_ws _ hd1
      · exact sep_not_ws _ hs1
      · exact digit_not_ws _ hm1
      · exact sep_not_ws _ hs2
      · exact digit_not_ws _ hy1
      · exact digit_not_ws _ hy2
      · exact digit_not_ws _ hy3
      · exact digit_not_ws _ hy4
    have hiso : ¬ (isoShapeTest ([d1] ++ s1 :: [m1] ++ s2 :: [y1, y2, y3, y4])
        = true) := by
      simp [isoShapeTest]
    have hsplit : splitOnSeps ([d1] ++ s1 :: [m1] ++ s2 :: [y1, y2, y3, y4])
        = [[d1], [m1], [y1, y2, y3, y4]] := by
      simp [splitOnSeps, digit_not_sep _ hd1, digit_not_sep _ hm1,
        digit_not_sep _ hy1, digit_not_sep _ hy2, digit_not_sep _ hy3,
        digit_not_sep _ hy4, hs1, hs2]
    simp only [normalizeToYYYYMMDD]
    rw [if_neg hne]
    have htl : (String.mk ([d1] ++ s1 :: [m1] ++ s2 :: [y1, y2, y3, y4])).toList
        = [d1] ++ s1 :: [m1] ++ s2 :: [y1, y2, y3, y4] := rfl
    rw [htl, trimChars_eq_self _ hallc, if_neg hiso, hsplit]
    simp [pad2L]
  · have hm2 : isDigitCh m2 = true := hdig m2 (by simp)
    show normalizeToYYYYMMDD (some (String.mk
        ([d1] ++ s1 :: [m1, m2] ++ s2 :: [y1, y2, y3, y4])))
      = some (String.mk
          ([y1, y2, y3, y4] ++ '-' :: pad2L [m1, m2] ++ '-' :: pad2L [d1]))
    have hne : String.mk ([d1] ++ s1 :: [m1, m2] ++ s2 :: [y1, y2, y3, y4]) ≠ "" := by
      intro he
      have := congrArg String.data he
      simp at this
    have hallc : ∀ c ∈ ([d1] ++ s1 :: [m1, m2] ++ s2 :: [y1, y2, y3, y4]),
        isWSChar c = false := by
      intro c hc
      have hc2 : c = d1 ∨ c = s1 ∨ c = m1 ∨ c = m2 ∨ c = s2 ∨ c = y1 ∨ c = y2
          ∨ c = y3 ∨ c = y4 := by
        simp only [List.mem_append, List.mem_cons, List.mem_singleton,
          List.not_mem_nil, or_false] at hc
        tauto
      rcases hc2 with rfl | rfl | rfl | rfl | rfl | rfl | rfl | rfl | rfl
      · exact digit_not_ws _ hd1
      · exact sep_not_ws _ hs1
      · exact digit_not_ws _ hm1
      · exact digit_not_ws _ hm2
      · exact sep_not_ws _ hs2
      · exact digit_not_ws _ hy1
      · exact digit_not_ws _ hy2
      · exact digit_not_ws _ hy3
      · exact digit_not_ws _ hy4
    have hiso : ¬ (isoShapeTest ([d1] ++ s1 :: [m1, m2] ++ s2 :: [y1, y2, y3, y4])
        = true) := by
      simp [isoShapeTest]
    have hsplit : splitOnSeps ([d1] ++ s1 :: [m1, m2] ++ s2 :: [y1, y2, y3, y4])
        = [[d1], [m1, m2], [y1, y2, y3, y4]] := by
      simp [splitOnSeps, digit_not_sep _ hd1, digit_not_sep _ hm1,
        digit_not_sep _ hm2, digit_not_sep _ hy1, digit_not_sep _ hy2,
        digit_not_sep _ hy3, digit_not_sep _ hy4, hs1, hs2]
    simp only [normalizeToYYYYMMDD]
    rw [if_neg hne]
    have htl : (String.mk ([d1] ++ s1 :: [m1, m2] ++ s2 :: [y1, y2, y3, y4])).toList
        = [d1] ++ s1 :: [m1, m2] ++ s2 :: [y1, y2, y3, y4] := rfl
    rw [htl, trimChars_eq_self _ hallc, if_neg hiso, hsplit]
    simp [pad2L]
  · have hd2 : isDigitCh d2 = true := hdig d2 (by simp)
    show normalizeToYYYYMMDD (some (String.mk
        ([d1, d2] ++ s1 :: [m1] ++ s2 :: [y1, y2, y3, y4])))
      = some (String.mk
          ([y1, y2, y3, y4] ++ '-' :: pad2L [m1] ++ '-' :: pad2L [d1, d2]))
    have hne : String.mk ([d1, d2] ++ s1 :: [m1] ++ s2 :: [y1, y2, y3, y4]) ≠ "" := by
      intro he
      have := congrArg String.data he
      simp at this
    have hallc : ∀ c ∈ ([d1, d2] ++ s1 :: [m1] ++ s2 :: [y1, y2, y3, y4]),
        isWSChar c = false := by
      intro c hc
      have hc2 : c = d1 ∨ c = d2 ∨ c = s1 ∨ c = m1 ∨ c = s2 ∨ c = y1 ∨ c = y2
          ∨ c = y3 ∨ c = y4 := by
        simp only [List.mem_append, List.mem_cons, List.mem_singleton,
          List.not_mem_nil, or_false] at hc
        tauto
      rcases hc2 with rfl | rfl | rfl | rfl | rfl | rfl | rfl | rfl | rfl
      · exact digit_not_ws _ hd1
      · exact digit_not_ws _ hd2
      · exact sep_not_ws _ hs1
      · exact digit_not_ws _ hm1
      · exact sep_not_ws _ hs2
      · exact digit_not_ws _ hy1
      · exact digit_not_ws _ hy2
      · exact digit_not_ws _ hy3
      · exact digit_not_ws _ hy4
    have hiso : ¬ (isoShapeTest ([d1, d2] ++ s1 :: [m1] ++ s2 :: [y1, y2, y3, y4])
        = true) := by
      simp [isoShapeTest]
    have hsplit : splitOnSeps ([d1, d2] ++ s1 :: [m1] ++ s2 :: [y1, y2, y3, y4])
        = [[d1, d2], [m1], [y1, y2, y3, y4]] := by
      simp [splitOnSeps, digit_not_sep _ hd1, digit_not_sep _ hd2,
        digit_not_sep _ hm1, digit_not_sep _ hy1, digit_not_sep _ hy2,
        digit_not_sep _ hy3, digit_not_sep _ hy4, hs1, hs2]
    simp only [normalizeToYYYYMMDD]
    rw [if_neg hne]
    have htl : (String.mk ([d1, d2] ++ s1 :: [m1] ++ s2 :: [y1, y2, y3, y4])).toList
        = [d1, d2] ++ s1 :: [m1] ++ s2 :: [y1, y2, y3, y4] := rfl
    rw [htl, trimChars_eq_self _ hallc, if_neg hiso, hsplit]
    simp [pad2L]
  · have hd2 : isDigitCh d2 = true := hdig d2 (by simp)
    have hm2 : isDigitCh m2 = true := hdig m2 (by simp)
    show normalizeToYYYYMMDD (some (String.mk
        ([d1, d2] ++ s1 :: [m1, m2] ++ s2 :: [y1, y2, y3, y4])))
      = some (String.mk
          ([y1, y2, y3, y4] ++ '-' :: pad2L [m1, m2] ++ '-' :: pad2L [d1, d2]))
    have hne : String.mk ([d1, d2] ++ s1 :: [m1, m2] ++ s2 :: [y1, y2, y3, y4])
        ≠ "" := by
      intro he
      have := congrArg String.data he
      simp at this
    have hallc : ∀ c ∈ ([d1, d2] ++ s1 :: [m1, m2] ++ s2 :: [y1, y2, y3, y4]),
        isWSChar c = false := by
      intro c hc
      have hc2 : c = d1 ∨ c = d2 ∨ c = s1 ∨ c = m1 ∨ c = m2 ∨ c = s2 ∨ c = y1
          ∨ c = y2 ∨ c = y3 ∨ c = y4 := by
        simp only [List.mem_append, List.mem_cons, List.mem_singleton,
          List.not_mem_nil, or_false] at hc
        tauto
      rcases hc2 with rfl | rfl | rfl | rfl | rfl | rfl | rfl | rfl | rfl | rfl
      · exact digit_not_ws _ hd1
      · exact digit_not_ws _ hd2
      · exact sep_not_ws _ hs1
      · exact digit_not_ws _ hm1
      · exact digit_not_ws _ hm2
      · exact sep_not_ws _ hs2
      · exact digit_not_ws _ hy1
      · exact digit_not_ws _ hy2
      · exact digit_not_ws _ hy3
      · exact digit_not_ws _ hy4
    have hm2ne : ¬ (m2 = '-') := by
      intro he
      have := digit_not_sep m2 hm2
      rw [he] at this
      exact absurd this (by decide)
    have hiso : ¬ (isoShapeTest ([d1, d2] ++ s1 :: [m1, m2] ++ s2 :: [y1, y2, y3, y4])
        = true) := by
      simp [isoShapeTest, hm2ne]
    have hsplit : splitOnSeps ([d1, d2] ++ s1 :: [m1, m2] ++ s2 :: [y1, y2, y3, y4])
        = [[d1, d2], [m1, m2], [y1, y2, y3, y4]] := by
      simp [splitOnSeps, digit_not_sep _ hd1, digit_not_sep _ hd2,
        digit_not_sep _ hm1, digit_not_sep _ hm2, digit_not_sep _ hy1,
        digit_not_sep _ hy2, digit_not_sep _ hy3, digit_not_sep _ hy4, hs1, hs2]
    simp only [normalizeToYYYYMMDD]
    rw [if_neg hne]
    have htl : (String.mk ([d1, d2] ++ s1 :: [m1, m2] ++ s2 :: [y1, y2, y3, y4])).toList
        = [d1, d2] ++ s1 :: [m1, m2] ++ s2 :: [y1, y2, y3, y4] := rfl
    rw [htl, trimChars_eq_self _ hallc, if_neg hiso, hsplit]
    simp [pad2L]

theorem normalize_other_trimmed :
    ∀ s : String, s ≠ "" →
      isoShapeTest (trimChars s.toList) = false →
      (∀ d m y, splitOnSeps (trimChars s.toList) = [d, m, y] →
        ¬(d.length ≤ 2 ∧ m.length ≤ 2 ∧ y.length = 4)) →
      normalizeToYYYYMMDD (some s) = some (String.mk (trimChars s.toList)) := by
  intro s hs hiso hshape
  simp only [normalizeToYYYYMMDD]
  rw [if_neg hs,
    if_neg (by simp [show isoShapeTest (trimChars s.data) = false from hiso])]
  rcases hsp : splitOnSeps (trimChars s.toList)
    with _ | ⟨d, _ | ⟨m, _ | ⟨y, _ | ⟨z, rest⟩⟩⟩⟩
  · rfl
  · rfl
  · rfl
  · show (if d.length ≤ 2 ∧ m.length ≤ 2 ∧ y.length = 4 then _ else _)
        = some (String.mk (trimChars s.toList))
    rw [if_neg (hshape d m y hsp)]
  · rfl

theorem normalize_trimmed_iso :
    ∀ s : String, isoShapeTest (trimChars s.toList) = true →
      normalizeToYYYYMMDD (some s) = some (String.mk (trimChars s.toList)) := by
  intro s hiso
  have hne : s ≠ "" := by
    intro he
    rw [he] at hiso
    exact absurd hiso (by decide)
  simp only [normalizeToYYYYMMDD]
  rw [if_neg hne, if_pos hiso]

theorem normalize_split_rewrite :
    ∀ (s : String) (d m y : List Char),
      isoShapeTest (trimChars s.toList) = false →
      splitOnSeps (trimChars s.toList) = [d, m, y] →
      d.length ≤ 2 → m.length ≤ 2 → y.length = 4 →
      normalizeToYYYYMMDD (some s)
        = some (String.mk (y ++ ['-'] ++ pad2L m ++ ['-'] ++ pad2L d)) := by
  intro s d m y hiso hsplit hd hm hy
  have hne : s ≠ "" := by
    intro he
    rw [he] at hsplit
    have h1 : (splitOnSeps (trimChars ("" : String).toList)).length = 1 := by
      decide
    rw [hsplit] at h1
    simp at h1
  simp only [normalizeToYYYYMMDD]
  rw [if_neg hne,
    if_neg (by simp [show isoShapeTest (trimChars s.data) = false from hiso])]
  rw [hsplit]
  show (if d.length ≤ 2 ∧ m.length ≤ 2 ∧ y.length = 4 then _ else _)
      = some (String.mk (y ++ ['-'] ++ pad2L m ++ ['-'] ++ pad2L d))
  rw [if_pos ⟨hd, hm, hy⟩]

/-- Claim C8 as amended, a full characterization on the trimmed input:
`normalizeToYYYYMMDD` (a) returns an exact `YYYY-MM-DD` input unchanged;
(b) more generally, an input whose whitespace-trimmed form matches
`YYYY-MM-DD` is returned trimmed; (c) an input whose trimmed form is not
`YYYY-MM-DD` but splits on dashes or slashes into exactly three parts
with lengths at most 2, at most 2 and exactly 4 — digits are NOT
required and parts may be empty — is rewritten to
`part3-pad2(part2)-pad2(part1)`; (d) in particular, every dash- or
slash-separated digit date `d[d]-m[m]-yyyy` is so rewritten; (e) every
other input is returned with surrounding whitespace removed but
otherwise unchanged; and (f) no input raises an error: an absent input
stays absent and the (falsy) empty string is returned as is.  (The
original claim's "any other input shape unchanged" fails: see the
counterexample.) -/
theorem claim_C8_normalize_amended :
    (∀ s : String, isoShapeTest s.toList = true →
      normalizeToYYYYMMDD (some s) = some s)
    ∧ (∀ s : String, isoShapeTest (trimChars s.toList) = true →
        normalizeToYYYYMMDD (some s) = some (String.mk (trimChars s.toList)))
    ∧ (∀ (s : String) (d m y : List Char),
        isoShapeTest (trimChars s.toList) = false →
        splitOnSeps (trimChars s.toList) = [d, m, y] →
        d.length ≤ 2 → m.length ≤ 2 → y.length = 4 →
        normalizeToYYYYMMDD (some s)
          = some (String.mk (y ++ ['-'] ++ pad2L m ++ ['-'] ++ pad2L d)))
    ∧ (∀ (d1 : Char) (d2 : Option Char) (m1 : Char) (m2 : Option Char)
        (y1 y2 y3 y4 s1 s2 : Char),
        isSepChar s1 = true → isSepChar s2 = true →
        (∀ c ∈ (d1 :: d2.toList) ++ (m1 :: m2.toList) ++ [y1, y2, y3, y4],
          isDigitCh c = true) →
        normalizeToYYYYMMDD (some (String.mk
            ((d1 :: d2.toList) ++ s1 :: (m1 :: m2.toList) ++ s2 :: [y1, y2, y3, y4])))
          = some (String.mk
            ([y1, y2, y3, y4] ++ '-' :: pad2L (m1 :: m2.toList)
              ++ '-' :: pad2L (d1 :: d2.toList))))
    ∧ (∀ s : String, s ≠ "" →
        isoShapeTest (trimChars s.toList) = false →
        (∀ d m y, splitOnSeps (trimChars s.toList) = [d, m, y] →
          ¬(d.length ≤ 2 ∧ m.length ≤ 2 ∧ y.length = 4)) →
        normalizeToYYYYMMDD (some s) = some (String.mk (trimChars s.toList)))
    ∧ (normalizeToYYYYMMDD none = none
        ∧ normalizeToYYYYMMDD (some "") = some "") :=
  ⟨normalize_iso_unchanged, normalize_trimmed_iso, normalize_split_rewrite,
    normalize_euro_rewrite, normalize_other_trimmed, rfl, rfl⟩

/-- Witness for the amended C8: an exact ISO date is unchanged, a
whitespace-surrounded ISO date is trimmed, a whitespace-surrounded digit
date, an empty-day-part date and a non-digit three-part input are all
rewritten, and a non-date input is merely trimmed. -/
theorem claim_C8_witness :
    normalizeToYYYYMMDD (some "2024-01-05") = some "2024-01-05"
    ∧ normalizeToYYYYMMDD (some " 2024-01-05 ") = some "2024-01-05"
    ∧ normalizeToYYYYMMDD (some " 05-01-2024") = some "2024-01-05"
    ∧ normalizeToYYYYMMDD (some "-12-2024") = some "2024-12-00"
    ∧ normalizeToYYYYMMDD (some "a-b-cdef") = some "cdef-0b-0a"
    ∧ normalizeToYYYYMMDD (some " hello ") = some "hello" := by
  refine ⟨?_, ?_, ?_, ?_, ?_, ?_⟩
  · exact claim_C8_normalize_amended.1 "2024-01-05" (by decide)
  · exact (claim_C8_normalize_amended.2.1 " 2024-01-05 " (by decide)).trans
      (by decide)
  · exact (claim_C8_normalize_amended.2.2.1 " 05-01-2024"
      ['0', '5'] ['0', '1'] ['2', '0', '2', '4']
      (by decide) (by decide) (by decide) (by decide) (by decide)).trans
      (by decide)
  · exact (claim_C8_normalize_amended.2.2.1 "-12-2024"
      [] ['1', '2'] ['2', '0', '2', '4']
      (by decide) (by decide) (by decide) (by decide) (by decide)).trans
      (by decide)
  · exact (claim_C8_normalize_amended.2.2.1 "a-b-cdef"
      ['a'] ['b'] ['c', 'd', 'e', 'f']
      (by decide) (by decide) (by decide) (by decide) (by decide)).trans
      (by decide)
  · refine ((claim_C8_normalize_amended.2.2.2.2.1 " hello "
      (by decide) (by decide) ?_).trans (by decide))
    intro d m y hdmy
    have h1 : (splitOnSeps (trimChars " hello ".toList)).length = 1 := by decide
    rw [hdmy] at h1
    simp at h1

end JiraSvc
